import Mathlib

/-!
Verification of the result-aggregation pipeline of `recruiting.py`
(MSOE-Rowing/recruiting-scraper).

The Python source is shallowly embedded: pure string manipulation becomes
functions on `List Char` / `String`, Python dictionaries become association
lists (preserving insertion order, as Python dicts do), Python sets that are
only ever inserted into become insert-if-absent lists, and the network layer
is abstracted into an explicit response value.  Python truthiness of the
string fields occurring in the source is modelled by non-emptiness, with an
absent-or-falsy JSON field represented as `""` (or `none` for nullable
fields).
-/

namespace Recruiting

/-! ## Python-style string helpers -/

/-- Python `a or b` on strings: first operand if truthy (non-empty), else the
second.  Used for the schema-tolerant precedence chains in the source. -/
def pyOr (a b : String) : String := if a = "" then b else a

/-- Whitespace test used throughout (model of Python `str.strip` / `\s`). -/
def isWS (c : Char) : Bool := c.isWhitespace

/-- Strip whitespace from both ends of a character list (Python `str.strip`). -/
def stripChars (l : List Char) : List Char :=
  (((l.dropWhile isWS).reverse.dropWhile isWS)).reverse

/-- Python `str.strip` on strings. -/
def pyStrip (s : String) : String := String.mk (stripChars s.toList)

/-- Lower-case every character (model of Python `str.lower`). -/
def lowerChars (l : List Char) : List Char := l.map Char.toLower

/-- Does `needle` occur at the head of `hay`? -/
def startsWithChars : List Char → List Char → Bool
  | [], _ => true
  | _ :: _, [] => false
  | a :: as, b :: bs => a = b && startsWithChars as bs

/-- Does `needle` occur as a contiguous substring of `hay`?
(Python `needle in hay`.) -/
def substrChars (needle : List Char) : List Char → Bool
  | [] => needle.isEmpty
  | c :: cs => startsWithChars needle (c :: cs) || substrChars needle cs

/-- Case-insensitive substring test: Python `needle.lower() in hay.lower()`. -/
def containsCI (hay needle : String) : Bool :=
  substrChars (lowerChars needle.toList) (lowerChars hay.toList)

/-! ## Name normalizer (`normalize_name`, recruiting.py lines 37-70)

The source delegates first/last extraction to the third-party `nameparser`
library (`HumanName`), which is not part of this repository.  Its behaviour
is modelled from the spec below (`parseTokens` / `parseFirstLast`); the
surrounding logic (strip, the `if first and last` cascade, the raw-string
fallback) is embedded from the source.  The modelled parser is total, so the
source's `except` fallback branch is unreachable in the model. -/

/-- Remove double-quoted segments (nickname handling): characters between a
quote and the matching closing quote are dropped, as are the quotes; an
unmatched trailing quote drops the rest of the line. -/
def removeQuoted : List Char → Bool → List Char
  | [], _ => []
  | c :: cs, inQ =>
    if c = '"' then removeQuoted cs (!inQ)
    else if inQ then removeQuoted cs inQ
    else c :: removeQuoted cs inQ

/-- Split into maximal whitespace-free words; `cur` is the (reversed) word
being accumulated. -/
def wordsAux : List Char → List Char → List (List Char)
  | [], cur => if cur.isEmpty then [] else [cur.reverse]
  | c :: cs, cur =>
    if isWS c then
      (if cur.isEmpty then wordsAux cs [] else cur.reverse :: wordsAux cs [])
    else wordsAux cs (c :: cur)

/-- Split a character list into whitespace-separated words. -/
def words (l : List Char) : List (List Char) := wordsAux l []

/-- Fixed title/suffix vocabulary dropped by the modelled name parser
(compared lower-cased). -/
def dropVocab : List (List Char) :=
  ["mr.".toList, "mrs.".toList, "ms.".toList, "dr.".toList, "prof.".toList,
   "jr.".toList, "sr.".toList, "jr".toList, "sr".toList,
   "ii".toList, "iii".toList, "iv".toList, "phd".toList, "md".toList]

/-- Is this token a title or suffix token (case-insensitively)? -/
def isDropTok (w : List Char) : Bool := dropVocab.contains (lowerChars w)

/-- Modelled from the spec: tokenisation step of the `HumanName` parser
(third-party `nameparser`, not in the repository).  Per spec 4.1 the parser
"parses a free-form personal name into first/last components using
name-parsing heuristics (handles middle names, initials, suffixes,
nicknames)": quoted nicknames are removed, the name is split on whitespace,
and title/suffix tokens are dropped. -/
def parseTokens (l : List Char) : List (List Char) :=
  (words (removeQuoted l false)).filter (fun w => !isDropTok w)

/-- Modelled from the spec: the first/last components extracted by the
`HumanName` parser.  First component = first remaining token; last
component = last remaining token when at least two tokens remain (middle
names and initials are ignored); a single token is a first name only. -/
def parseFirstLast (l : List Char) : List Char × List Char :=
  match parseTokens l with
  | [] => ([], [])
  | [w] => (w, [])
  | w :: rest => (w, rest.getLastD [])

/-- Character-level normalizer: strip, parse into first/last, and return
"First Last" when both resolve, else whichever resolved, else the stripped
raw input (the source's `if first and last` cascade). -/
def normChars (l : List Char) : List Char :=
  let t := stripChars l
  let p := parseFirstLast t
  let f := stripChars p.1
  let la := stripChars p.2
  if f ≠ [] ∧ la ≠ [] then f ++ ' ' :: la
  else if f ≠ [] then f
  else if la ≠ [] then la
  else t

/-- `normalize_name` (recruiting.py lines 37-70). -/
def normalize_name (s : String) : String := String.mk (normChars s.toList)

/-! ## Data model -/

/-- A lineup athlete as the Python dicts appearing in the source carry it.
`seat = none` models the Python value `None` (the boat-label fallback stores
the key `"seat"` with value `None`); `age = none` models an absent `"age"`
key (the fallback dict has no such key, parsed lineup entries always do). -/
structure Athlete where
  seat : Option String
  name : String
  age : Option String
  club : String
  deriving DecidableEq, Repr

/-- One boat's placement in one race-heat, as built by the first phase of
`parse_event_results_json` (the dicts pushed onto `race_rows`). -/
structure RaceRow where
  boat_id : Option String
  boat_label : String
  club_name : String
  place : String
  bow : String
  finish : String
  margin : String
  race_name : String
  num_boats : Nat
  deriving DecidableEq, Repr

/-- A joined result record (the dicts appended to `results` in
`parse_event_results_json`). -/
structure ResultRecord where
  event : String
  race : String
  place : String
  bow : String
  club : String
  athletes : List Athlete
  finish : String
  margin : String
  num_boats : Nat
  deriving DecidableEq, Repr

/-! ## Association-list model of Python dicts -/

/-- Loop body shared by the source's "append the item when present, else
`continue`" loops. -/
def appendIfSome {β : Type} (acc : List β) (o : Option β) : List β :=
  match o with
  | some b => acc ++ [b]
  | none => acc

/-- Lookup in an association list (Python `d[k]` / `k in d`). -/
def dlookup {α : Type} (k : String) : List (String × α) → Option α
  | [] => none
  | (k', v) :: rest => if k' = k then some v else dlookup k rest

/-- Assignment `d[k] = v` on a Python dict: overwrite in place if the key
exists, else append (Python dicts preserve insertion order). -/
def dinsert {α : Type} (m : List (String × α)) (k : String) (v : α) :
    List (String × α) :=
  match m with
  | [] => [(k, v)]
  | (k', v') :: rest => if k' = k then (k, v) :: rest else (k', v') :: dinsert rest k v

/-! ## Race-result normalizer (first phase of `parse_event_results_json`,
recruiting.py lines 296-361) -/

/-- One raw per-boat result object from the event JSON.  Each string field
models the corresponding JSON field, with `""` standing for an absent or
falsy value (the source only ever tests these fields for truthiness or
passes them through). -/
structure RawResult where
  boatId : String
  boatLabel : String
  orgName : String
  longName : String
  place : String
  orderOfFinishPlace : String
  finishPlace : String
  officialPlace : String
  lane : String
  finishTimeString : String
  adjustedTimeString : String
  rawTimeString : String
  officialTimeString : String
  marginString : String
  adjustedTimeDeltaString : String
  officialMarginString : String
  deriving DecidableEq, Repr

/-- One raw race (heat) object from the event JSON. -/
structure RawRace where
  stageName : String
  displayNumber : String
  raceName : String
  results : List RawResult
  deriving DecidableEq, Repr

/-- Race-name precedence chain (lines 307-312). -/
def resolve_race_name (race : RawRace) : String :=
  pyOr race.stageName (pyOr race.displayNumber (pyOr race.raceName "Final"))

/-- Place precedence chain (lines 322-328). -/
def resolve_place (r : RawResult) : String :=
  pyOr r.place (pyOr r.orderOfFinishPlace (pyOr r.finishPlace (pyOr r.officialPlace "")))

/-- Finish-time precedence chain (lines 333-339). -/
def resolve_finish (r : RawResult) : String :=
  pyOr r.finishTimeString (pyOr r.adjustedTimeString
    (pyOr r.rawTimeString (pyOr r.officialTimeString "")))

/-- Margin precedence chain (lines 341-346). -/
def resolve_margin (r : RawResult) : String :=
  pyOr r.marginString (pyOr r.adjustedTimeDeltaString (pyOr r.officialMarginString ""))

/-- `str(result.get("boatId")) if result.get("boatId") else None` (line 318). -/
def resolve_boat_id (r : RawResult) : Option String :=
  if r.boatId ≠ "" then some r.boatId else none

/-- The row dict built for one raw result (lines 347-356), before the heat's
boat count is stamped; `nb` is the value stamped afterwards (line 360). -/
def mkRaceRow (race_name : String) (nb : Nat) (r : RawResult) : RaceRow :=
  { boat_id := resolve_boat_id r
    boat_label := r.boatLabel
    club_name := pyOr r.orgName r.longName
    place := resolve_place r
    bow := r.lane
    finish := resolve_finish r
    margin := resolve_margin r
    race_name := race_name
    num_boats := nb }

/-- The per-heat loop body (lines 314-356): accumulate the running
`num_boats` counter and the list of row dicts. -/
def build_race (race : RawRace) : Nat × List (Nat → RaceRow) :=
  race.results.foldl
    (fun st r =>
      (st.1 + (if resolve_place r ≠ "" then 1 else 0),
       st.2 ++ [fun nb => mkRaceRow (resolve_race_name race) nb r]))
    (0, [])

/-- Rows of one heat with the heat's boat count stamped on every row
(line 360: `for row in rows: row["num_boats"] = num_boats`). -/
def race_rows_of (race : RawRace) : List RaceRow :=
  let st := build_race race
  st.2.map (fun f => f st.1)

/-- All rows of the payload in document order (line 361:
`race_rows.extend(rows)`). -/
def parse_race_rows (races : List RawRace) : List RaceRow :=
  races.foldl (fun acc race => acc ++ race_rows_of race) []

/-! ## Lineup join stage (second phase of `parse_event_results_json`,
recruiting.py lines 363-415) -/

/-- The club-match filter predicate of the join loop (lines 386-390):
keep a lineup athlete when the row has a club name, the athlete has a club,
and the row's club name occurs case-insensitively in the athlete's club
text; with an empty row club name keep everyone. -/
def keep_athlete (club_name : String) (a : Athlete) : Bool :=
  if club_name ≠ "" ∧ a.club ≠ "" ∧ containsCI a.club club_name then true
  else if club_name = "" then true
  else false

/-- The synthetic athlete built from the boat label (lines 396-400):
`{"name": label, "seat": None, "club": club_name}` — seat present with
value `None`, no `"age"` key at all. -/
def synth_athlete (info : RaceRow) : Athlete :=
  { seat := none, name := info.boat_label, age := none, club := info.club_name }

/-- The athlete-resolution block of the join loop (lines 383-400). -/
def resolve_athletes (boat_lineups : List (String × List Athlete))
    (info : RaceRow) : List Athlete :=
  match info.boat_id with
  | some bid =>
    match dlookup bid boat_lineups with
    | some lu =>
      if lu ≠ [] then
        let filtered := lu.foldl
          (fun acc a => if keep_athlete info.club_name a then acc ++ [a] else acc) []
        if filtered ≠ [] then filtered else lu
      else if info.boat_label ≠ "" then [synth_athlete info] else []
    | none => if info.boat_label ≠ "" then [synth_athlete info] else []
  | none => if info.boat_label ≠ "" then [synth_athlete info] else []

/-- One iteration of the join loop (lines 380-414): `none` models the
`continue` for rows with no athlete information. -/
def joinRow (boat_lineups : List (String × List Athlete)) (event_name : String)
    (info : RaceRow) : Option ResultRecord :=
  let athletes := resolve_athletes boat_lineups info
  if athletes ≠ [] then
    some { event := event_name
           race := info.race_name
           place := info.place
           bow := info.bow
           club := info.club_name
           athletes := athletes
           finish := info.finish
           margin := info.margin
           num_boats := info.num_boats }
  else none

/-- The join loop over all rows (lines 380-415), appending records in row
order. -/
def joinRows (boat_lineups : List (String × List Athlete)) (event_name : String)
    (rows : List RaceRow) : List ResultRecord :=
  rows.foldl
    (fun acc info => appendIfSome acc (joinRow boat_lineups event_name info)) []

/-- The `boat_lineups` dict as built by the `as_completed` collection loop
(lines 364-377): the completion list holds one `(boat_id, lineup)` pair per
future, in completion order (a task that raised during collection is
represented by an empty lineup, exactly as the `except` branch stores). -/
def build_lineups (completed : List (String × List Athlete)) :
    List (String × List Athlete) :=
  completed.foldl (fun m kv => dinsert m kv.1 kv.2) []

/-! ## Lineup fetcher/parser (`fetch_lineup` / `parse_lineup_html`,
recruiting.py lines 217-269)

The HTTP transport is external; a fetch outcome is modelled explicitly.  The
HTML-to-text step (`BeautifulSoup.get_text(separator="\n")`) is the external
tag-selection library, so `parse_lineup_html` is modelled on the extracted
text.  The per-line pattern `(\d+):\s*(.+?)\s*-\s*(\d+)\s*\((.+?)\)` is
embedded as a deterministic matcher that reproduces Python `re.match`
backtracking: greedy `\d+` and `\s*`, lazy `.+?`, no end anchor. -/

/-- Outcome of the single bounded-timeout lineup request. -/
inductive FetchOutcome where
  | success (status : Nat) (bodyText : String)
  | transportError
  | timeoutExpired
  deriving DecidableEq, Repr

/-- Split on newline characters the way Python `str.splitlines` does for
`"\n"`-separated text: a trailing newline produces no trailing empty line. -/
def splitLinesChars : List Char → List Char → List (List Char)
  | [], cur => if cur.isEmpty then [] else [cur.reverse]
  | c :: cs, cur =>
    if c = '\n' then cur.reverse :: splitLinesChars cs []
    else splitLinesChars cs (c :: cur)

/-- Python `text.splitlines()` for newline-separated text. -/
def splitLines (s : String) : List String :=
  (splitLinesChars s.toList []).map String.mk

/-- The prefix of `l` before the first occurrence of `ch`, or `none` when
`ch` does not occur. -/
def takeBefore (ch : Char) : List Char → Option (List Char)
  | [] => none
  | c :: cs => if c = ch then some [] else (takeBefore ch cs).map (c :: ·)

/-- The tail of the pattern after the name group: `\s*-\s*(\d+)\s*\((.+?)\)`.
Every quantifier here is forced (whitespace runs are maximal because the
following literal is never whitespace, the digit run is maximal because the
following literal is not a digit, and the club group is the shortest
non-empty prefix before a closing parenthesis). -/
def contAfterName (l : List Char) : Option (List Char × List Char) :=
  match l.dropWhile isWS with
  | '-' :: l2 =>
    let l3 := l2.dropWhile isWS
    let age := l3.takeWhile Char.isDigit
    if age.isEmpty then none
    else
      match (l3.dropWhile Char.isDigit).dropWhile isWS with
      | '(' :: l5 =>
        match l5 with
        | [] => none
        | c :: rest => (takeBefore ')' rest).map (fun t => (age, c :: t))
      | _ => none
  | _ => none

/-- Lazy-`.+?` search for the name group: grow the name one character at a
time until the rest of the pattern matches the remainder. -/
def nameSearch (acc : List Char) : List Char → Option (List Char × List Char × List Char)
  | [] => none
  | c :: rest =>
    match contAfterName rest with
    | some r => some (acc ++ [c], r.1, r.2)
    | none => nameSearch (acc ++ [c]) rest

/-- Backtracking into the greedy `\s*` before the name group: first try the
maximal whitespace skip, then give whitespace characters back to the name
group one at a time (`wsRev` is the reversed whitespace run still held by
`\s*`). -/
def wLoop : List Char → List Char → Option (List Char × List Char × List Char)
  | [], rest => nameSearch [] rest
  | c :: cr, rest =>
    match nameSearch [] rest with
    | some r => some r
    | none => wLoop cr (c :: rest)

/-- `re.match` of the lineup pattern against one stripped line (line 260),
together with the group post-processing of lines 262-268 (`name.strip()`,
`club.strip()`). -/
def match_lineup_line (line : String) : Option Athlete :=
  let cs := stripChars line.toList
  let seat := cs.takeWhile Char.isDigit
  if seat.isEmpty then none
  else
    match cs.dropWhile Char.isDigit with
    | ':' :: rest =>
      match wLoop (rest.takeWhile isWS).reverse (rest.dropWhile isWS) with
      | some (nm, age, club) =>
        some { seat := some (String.mk seat)
               name := String.mk (stripChars nm)
               age := some (String.mk age)
               club := String.mk (stripChars club) }
      | none => none
    | _ => none

/-- `parse_lineup_html` (recruiting.py lines 241-269) on the extracted text:
the line loop appending each match. -/
def parse_lineup_html (text : String) : List Athlete :=
  (splitLines text).foldl
    (fun acc line => appendIfSome acc (match_lineup_line line)) []

/-- `fetch_lineup` (recruiting.py lines 217-238): parse on a 200 response,
an empty list on any other status and on any raised transport error or
timeout. -/
def fetch_lineup (r : FetchOutcome) : List Athlete :=
  match r with
  | .success status body => if status = 200 then parse_lineup_html body else []
  | .transportError => []
  | .timeoutExpired => []

/-! ## Athlete aggregator (`aggregate_athletes`, recruiting.py lines 418-482) -/

/-- One appended per-race participation entry (lines 469-481). -/
structure Participation where
  event : String
  race : String
  place : String
  bow : String
  club : String
  finish : String
  margin : String
  seat : Option String
  num_boats : Nat
  deriving DecidableEq, Repr

/-- The per-athlete aggregate value.  Python's `clubs`/`names` sets are
modelled as insert-if-absent lists; `age` starts unset in the source's
defaultdict and is written before the first participation is appended. -/
structure AthleteAgg where
  races : List Participation
  clubs : List String
  names : List String
  age : String
  deriving DecidableEq, Repr

/-- The defaultdict default value (lines 438-444). -/
def emptyAgg : AthleteAgg := { races := [], clubs := [], names := [], age := "" }

/-- Python `set.add` on the modelled sets. -/
def saddStr (l : List String) (s : String) : List String :=
  if s ∈ l then l else l ++ [s]

/-- The aggregate mapping: normalized name to aggregate, in insertion order. -/
abbrev AggMap : Type := List (String × AthleteAgg)

/-- `athletes[key]` read on the defaultdict. -/
def agget (m : AggMap) (k : String) : AthleteAgg := (dlookup k m).getD emptyAgg

/-- The race-identity tuple (lines 455-462). -/
def race_id_of (r : ResultRecord) : String × String × String × String × String × String :=
  (r.event, r.race, r.place, r.bow, r.club, r.finish)

/-- Abbreviation for the race-identity tuple type. -/
abbrev RaceId : Type := String × String × String × String × String × String

/-- The participation entry appended for one athlete of one record
(lines 469-481): `athlete.get("seat", "")` always finds the key, so the
stored seat is the dict's value (possibly Python `None`); the record fields
are copied through. -/
def mk_participation (r : ResultRecord) (a : Athlete) : Participation :=
  { event := r.event, race := r.race, place := r.place, bow := r.bow,
    club := r.club, finish := r.finish, margin := r.margin,
    seat := a.seat, num_boats := r.num_boats }

/-- The mutations applied to one athlete's aggregate entry (lines 466-481):
add the raw name and club to the sets, overwrite the age with
`athlete.get("age", "")`, and append the participation entry. -/
def upd_agg (r : ResultRecord) (a : Athlete) (agg : AthleteAgg) : AthleteAgg :=
  { agg with
    names := saddStr agg.names a.name
    clubs := saddStr agg.clubs a.club
    age := a.age.getD ""
    races := agg.races ++ [mk_participation r a] }

/-- The per-athlete body of the aggregation loop (lines 451-481), carrying
the map together with the per-record `seen_names` set. -/
def step_athlete (r : ResultRecord)
    (st : AggMap × List (String × RaceId)) (a : Athlete) :
    AggMap × List (String × RaceId) :=
  let key := normalize_name a.name
  let rid : RaceId := race_id_of r
  if (key, rid) ∈ st.2 then st
  else
    (dinsert st.1 key (upd_agg r a (agget st.1 key)), st.2 ++ [(key, rid)])

/-- The per-record body of the aggregation loop (lines 445-481), including
the DNS/DNF filter (line 447). -/
def process_result (m : AggMap) (r : ResultRecord) : AggMap :=
  if r.finish = "" ∨ pyStrip r.place = "999" then m
  else (r.athletes.foldl (step_athlete r) (m, [])).1

/-- `aggregate_athletes` (recruiting.py lines 418-482). -/
def aggregate_athletes (rs : List ResultRecord) : AggMap :=
  rs.foldl process_result []

/-! ## Tabular exporter (`write_athletes_to_csv`, recruiting.py
lines 485-516), modelled as the ordered list of rows handed to the csv
writer. -/

/-- The fixed header row (lines 496-498). -/
def csv_header : List String :=
  ["athlete_name", "age", "club", "seat", "event", "race", "place", "bow",
   "finish", "margin", "num_boats"]

/-- One data row (lines 504-516); the csv writer renders Python `None` as an
empty cell. -/
def csv_row (name : String) (info : AthleteAgg) (race : Participation) :
    List String :=
  [name, info.age, String.intercalate ", " info.clubs, race.seat.getD "",
   race.event, race.race, race.place, race.bow, race.finish, race.margin,
   toString race.num_boats]

/-- `write_athletes_to_csv` (recruiting.py lines 485-516): the header row
followed by one row per (athlete, participation) pair in iteration order. -/
def write_athletes_to_csv (m : AggMap) : List (List String) :=
  csv_header ::
    m.foldl (fun acc kv => acc ++ kv.2.races.map (csv_row kv.1 kv.2)) []

/-! ## Spec-side comparison definitions -/

/-- The spec's wording of the club filter (4.6 and the design note): keep a
lineup athlete iff the row's club name is empty or the athlete's club text
case-insensitively contains the row's club name as a substring (one
direction only).  Stated from the spec, to be compared with the source's
`keep_athlete`. -/
def club_match_spec (club_name : String) (a : Athlete) : Bool :=
  (club_name == "") || containsCI a.club club_name

/-- A row's boat has no usable lineup: no boat id, a boat id absent from the
fetched map, or an empty fetched lineup. -/
def no_usable_lineup (boat_lineups : List (String × List Athlete))
    (info : RaceRow) : Prop :=
  info.boat_id = none
  ∨ ∃ bid, info.boat_id = some bid
      ∧ (dlookup bid boat_lineups = none ∨ dlookup bid boat_lineups = some [])

/-! ## Concrete fixtures used by witnesses and counterexamples -/

/-- A parsed-lineup-style athlete. -/
def wAthleteA : Athlete := { seat := some "3", name := "A B", age := some "18", club := "C" }

/-- A second spelling of the same person (middle initial), synthetic-style
dict shape. -/
def wAthleteB : Athlete := { seat := none, name := "A C. B", age := none, club := "C" }

/-- A record that passes the aggregation filter. -/
def wRecGood : ResultRecord :=
  { event := "E", race := "F", place := "1", bow := "4", club := "C",
    athletes := [wAthleteA], finish := "1:00", margin := "", num_boats := 2 }

/-- A second record with the identical race-identity tuple (only the margin
and the athlete spelling differ). -/
def wRecGood2 : ResultRecord :=
  { event := "E", race := "F", place := "1", bow := "4", club := "C",
    athletes := [wAthleteB], finish := "1:00", margin := "0.5", num_boats := 2 }

/-- A record with the DNS/DNF place sentinel. -/
def wRecBad : ResultRecord :=
  { event := "E", race := "F", place := "999", bow := "4", club := "C",
    athletes := [wAthleteA], finish := "1:00", margin := "", num_boats := 2 }

/-- A race row with no boat id and a boat label. -/
def wRowLabel : RaceRow :=
  { boat_id := none, boat_label := "MSOE Varsity 8", club_name := "MSOE",
    place := "1", bow := "2", finish := "1:00", margin := "", race_name := "F",
    num_boats := 3 }

/-- A race row with no boat id and no boat label. -/
def wRowNoLabel : RaceRow :=
  { boat_id := none, boat_label := "", club_name := "MSOE",
    place := "1", bow := "2", finish := "1:00", margin := "", race_name := "F",
    num_boats := 3 }

/-- A race row whose boat id has a fetched lineup. -/
def wRowLineup : RaceRow :=
  { boat_id := some "9", boat_label := "L", club_name := "msoe",
    place := "1", bow := "2", finish := "1:00", margin := "", race_name := "F",
    num_boats := 3 }

/-- A fetched lineup with one matching and one non-matching club. -/
def wLineup : List Athlete :=
  [{ seat := some "1", name := "X Y", age := some "18", club := "MSOE Rowing" },
   { seat := some "2", name := "Z W", age := some "17", club := "Other Club" }]

/-! ## General helper lemmas -/

/-- An append-accumulating fold over an option-producing step is a
`filterMap`. -/
theorem foldl_push_filterMap {α β : Type} (f : α → Option β) :
    ∀ (l : List α) (acc : List β),
      l.foldl (fun acc a => appendIfSome acc (f a)) acc = acc ++ l.filterMap f := by
  intro l
  induction l with
  | nil => intro acc; simp
  | cons a l ih =>
    intro acc
    rw [List.foldl_cons]
    cases h : f a with
    | none =>
      have e : appendIfSome acc (none : Option β) = acc := by simp [appendIfSome]
      rw [e, ih]
      simp [List.filterMap_cons, h]
    | some b =>
      have e : appendIfSome acc (some b) = acc ++ [b] := by simp [appendIfSome]
      rw [e, ih]
      simp [List.filterMap_cons, h]

/-- An append-accumulating fold over a boolean test is a `filter`. -/
theorem foldl_push_filter {α : Type} (p : α → Bool) :
    ∀ (l : List α) (acc : List α),
      l.foldl (fun acc a => if p a then acc ++ [a] else acc) acc
        = acc ++ l.filter p := by
  intro l
  induction l with
  | nil => intro acc; simp
  | cons a l ih =>
    intro acc
    by_cases h : p a <;> simp [List.foldl_cons, h, ih]

/-- The join loop is a `filterMap` over the rows in order. -/
theorem joinRows_eq_filterMap (boat_lineups : List (String × List Athlete))
    (evt : String) (rows : List RaceRow) :
    joinRows boat_lineups evt rows = rows.filterMap (joinRow boat_lineups evt) := by
  unfold joinRows
  have h := foldl_push_filterMap (joinRow boat_lineups evt) rows []
  rw [List.nil_append] at h
  exact h

/-! ## Claim C2: per-heat boat counts -/

/-- The per-heat fold of `build_race`, characterised. -/
theorem build_race_spec (race : RawRace) :
    build_race race =
      ((race.results.filter (fun r => decide (resolve_place r ≠ ""))).length,
       race.results.map (fun r => fun nb => mkRaceRow (resolve_race_name race) nb r)) := by
  unfold build_race
  suffices h : ∀ (rs : List RawResult) (n : Nat) (acc : List (Nat → RaceRow)),
      rs.foldl
        (fun st r =>
          (st.1 + (if resolve_place r ≠ "" then 1 else 0),
           st.2 ++ [fun nb => mkRaceRow (resolve_race_name race) nb r]))
        (n, acc)
      = (n + (rs.filter (fun r => decide (resolve_place r ≠ ""))).length,
         acc ++ rs.map (fun r => fun nb => mkRaceRow (resolve_race_name race) nb r)) by
    simpa using h race.results 0 []
  intro rs
  induction rs with
  | nil => intro n acc; simp
  | cons r rs ih =>
    intro n acc
    rw [List.foldl_cons, ih]
    by_cases h : resolve_place r = ""
    · simp [h, List.filter_cons]
    · rw [if_pos (by simp [h]), List.filter_cons, if_pos (by simp [h])]
      simp only [List.length_cons, List.map_cons, Prod.mk.injEq]
      constructor
      · omega
      · simp

/-- Claim C2: for every heat in the raw payload, every row produced for that
heat is stamped with `num_boats` equal to the count of results in the heat
whose resolved place is non-empty, while results with an empty resolved
place are excluded from that count yet still yield their own output row:
the rows of a heat are exactly one row per raw result, in order, each
carrying the filtered count. -/
theorem C2_num_boats_counts_placed_results (race : RawRace) :
    race_rows_of race =
      race.results.map
        (mkRaceRow (resolve_race_name race)
          ((race.results.filter (fun r => decide (resolve_place r ≠ ""))).length)) := by
  unfold race_rows_of
  rw [build_race_spec]
  simp

/-! ## Claim C7: exporter row count -/

/-- Claim C7: the exporter writes exactly one data row per
(athlete, participation-entry) pair, so the output has one header row plus
the sum over all athletes of the length of their participation list. -/
theorem C7_export_row_count (m : AggMap) :
    (write_athletes_to_csv m).length
      = 1 + (m.map (fun kv => kv.2.races.length)).sum := by
  unfold write_athletes_to_csv
  suffices h : ∀ (l : AggMap) (acc : List (List String)),
      (l.foldl (fun acc kv => acc ++ kv.2.races.map (csv_row kv.1 kv.2)) acc).length
        = acc.length + (l.map (fun kv => kv.2.races.length)).sum by
    simp [h m []]
    omega
  intro l
  induction l with
  | nil => intro acc; simp
  | cons kv l ih =>
    intro acc
    simp [List.foldl_cons, ih]
    omega

/-! ## Claim C8: lineup fetch degradation and line-by-line parsing -/

/-- Claim C8: a lineup fetch that ends in a non-success status, a transport
error, or a timeout yields an empty athlete sequence instead of a
propagated failure; on a 200 response the body is matched line by line
against the lineup pattern, non-matching lines are skipped, and the
matching athletes are returned in source order (a `filterMap` over the
lines in order). -/
theorem C8_fetch_lineup_degrades_and_parses :
    fetch_lineup .transportError = []
    ∧ fetch_lineup .timeoutExpired = []
    ∧ (∀ status body, status ≠ 200 → fetch_lineup (.success status body) = [])
    ∧ (∀ body, fetch_lineup (.success 200 body)
        = (splitLines body).filterMap match_lineup_line) := by
  refine ⟨rfl, rfl, ?_, ?_⟩
  · intro status body h
    simp [fetch_lineup, h]
  · intro body
    show parse_lineup_html body = _
    unfold parse_lineup_html
    have h := foldl_push_filterMap match_lineup_line (splitLines body) []
    rw [List.nil_append] at h
    exact h

/-- Witness for C8 at concrete inputs: a 500 status degrades to an empty
sequence, and a 200 response is parsed line by line in order. -/
theorem C8_fetch_lineup_degrades_and_parses_witness :
    ((500 : Nat) ≠ 200
      ∧ fetch_lineup (.success 500 "1: A B - 18 (C)") = [])
    ∧ fetch_lineup (.success 200 "junk\n1: A B - 18 (C)")
        = (splitLines "junk\n1: A B - 18 (C)").filterMap match_lineup_line :=
  ⟨⟨by decide,
    C8_fetch_lineup_degrades_and_parses.2.2.1 500 "1: A B - 18 (C)" (by decide)⟩,
   C8_fetch_lineup_degrades_and_parses.2.2.2 "junk\n1: A B - 18 (C)"⟩

/-! ## Association-list lemmas -/

theorem dlookup_dinsert_self {α : Type} (m : List (String × α)) (k : String) (v : α) :
    dlookup k (dinsert m k v) = some v := by
  induction m with
  | nil => simp [dinsert, dlookup]
  | cons kv rest ih =>
    by_cases h : kv.1 = k
    · simp [dinsert, h, dlookup]
    · simp [dinsert, h, dlookup, ih]

theorem dlookup_dinsert_ne {α : Type} (m : List (String × α)) (k k' : String) (v : α)
    (h : k' ≠ k) : dlookup k' (dinsert m k v) = dlookup k' m := by
  induction m with
  | nil =>
    simp only [dinsert, dlookup]
    rw [if_neg (fun hc : k = k' => h hc.symm)]
  | cons kv rest ih =>
    by_cases hk : kv.1 = k
    · subst hk
      simp only [dinsert, if_pos rfl, dlookup]
      rw [if_neg (fun hc => h hc.symm), if_neg (fun hc => h hc.symm)]
    · simp only [dinsert, if_neg hk, dlookup]
      by_cases hk2 : kv.1 = k'
      · simp [hk2]
      · simp [hk2, ih]

theorem dlookup_eq_none_of_not_mem {α : Type} (m : List (String × α)) (k : String)
    (h : k ∉ m.map Prod.fst) : dlookup k m = none := by
  induction m with
  | nil => rfl
  | cons kv rest ih =>
    simp only [List.map_cons, List.mem_cons] at h
    push_neg at h
    simp only [dlookup]
    rw [if_neg (fun hc => h.1 hc.symm)]
    exact ih h.2

theorem mem_of_dlookup_eq_some {α : Type} (m : List (String × α)) (k : String) (v : α)
    (h : dlookup k m = some v) : (k, v) ∈ m := by
  induction m with
  | nil => simp [dlookup] at h
  | cons kv rest ih =>
    cases kv with
    | mk k0 v0 =>
      by_cases hk : k0 = k
      · subst hk
        simp only [dlookup, if_pos rfl] at h
        cases h
        exact List.mem_cons_self _ _
      · simp only [dlookup, if_neg hk] at h
        exact List.mem_cons_of_mem _ (ih h)

theorem dlookup_eq_some_of_mem {α : Type} (m : List (String × α)) (k : String) (v : α)
    (hnd : (m.map Prod.fst).Nodup) (h : (k, v) ∈ m) : dlookup k m = some v := by
  induction m with
  | nil => simp at h
  | cons kv rest ih =>
    simp only [List.map_cons, List.nodup_cons] at hnd
    rcases List.mem_cons.mp h with h1 | h2
    · subst h1
      simp [dlookup]
    · have hk : kv.1 ≠ k := by
        intro hc
        exact hnd.1 (by
          subst hc
          exact List.mem_map.mpr ⟨(kv.1, v), h2, rfl⟩)
      simp only [dlookup, if_neg hk]
      exact ih hnd.2 h2

/-- With distinct keys, lookup returns the same answer on any permutation of
the entry list. -/
theorem dlookup_perm {α : Type} (c1 c2 : List (String × α)) (k : String)
    (hperm : c1.Perm c2) (hnd : (c1.map Prod.fst).Nodup) :
    dlookup k c1 = dlookup k c2 := by
  have hnd2 : (c2.map Prod.fst).Nodup := ((hperm.map Prod.fst).nodup_iff).mp hnd
  cases h : dlookup k c1 with
  | some v =>
    exact (dlookup_eq_some_of_mem c2 k v hnd2
      (hperm.mem_iff.mp (mem_of_dlookup_eq_some c1 k v h))).symm
  | none =>
    have hk : k ∉ c2.map Prod.fst := by
      intro hc
      rcases List.mem_map.mp hc with ⟨kv, hmem, hfst⟩
      have hmem1 : kv ∈ c1 := hperm.mem_iff.mpr hmem
      have : dlookup k c1 = some kv.2 :=
        dlookup_eq_some_of_mem c1 k kv.2 hnd (by
          cases kv
          cases hfst
          simpa using hmem1)
      rw [h] at this
      cases this
    exact (dlookup_eq_none_of_not_mem c2 k hk).symm

/-- Building the `boat_lineups` dict from a completion list with distinct
boat ids gives the same lookups as the completion list itself. -/
theorem dlookup_build_lineups (c : List (String × List Athlete)) (k : String)
    (hnd : (c.map Prod.fst).Nodup) :
    dlookup k (build_lineups c) = dlookup k c := by
  unfold build_lineups
  suffices h : ∀ (c : List (String × List Athlete)) (m0 : List (String × List Athlete)),
      (c.map Prod.fst).Nodup →
      dlookup k (c.foldl (fun m kv => dinsert m kv.1 kv.2) m0)
        = match dlookup k c with
          | some v => some v
          | none => dlookup k m0 by
    rw [h c [] hnd]
    cases hc : dlookup k c <;> simp [dlookup]
  intro c
  induction c with
  | nil => intro m0 _; simp [dlookup]
  | cons kv rest ih =>
    intro m0 hnd
    simp only [List.map_cons, List.nodup_cons] at hnd
    rw [List.foldl_cons, ih _ hnd.2]
    by_cases hk : kv.1 = k
    · subst hk
      have hrest : dlookup kv.1 rest = none :=
        dlookup_eq_none_of_not_mem rest kv.1 hnd.1
      rw [hrest]
      simp only [dlookup, if_pos rfl]
      cases hr : dlookup kv.1 rest with
      | none => simp [dlookup_dinsert_self]
      | some v => rw [hrest] at hr; cases hr
    · simp only [dlookup, if_neg hk]
      cases hr : dlookup k rest with
      | none => simp [dlookup_dinsert_ne _ _ _ _ (fun hc => hk hc.symm)]
      | some v => simp

/-! ## Claim C9: join output independent of fetch completion order -/

/-- `joinRow` reads the lineup dict only through lookup at the row's boat
id. -/
theorem joinRow_congr (m1 m2 : List (String × List Athlete)) (evt : String)
    (info : RaceRow) (h : ∀ k, dlookup k m1 = dlookup k m2) :
    joinRow m1 evt info = joinRow m2 evt info := by
  unfold joinRow resolve_athletes
  cases hb : info.boat_id with
  | none => rfl
  | some bid => simp only [h]

/-- Claim C9: the join stage's output is the input row order (one record per
surviving row, via `filterMap` over the rows), and two completion orders of
the concurrent lineup fetches that are permutations of each other (with the
deduplicated, hence distinct, boat ids) produce identical output
sequences. -/
theorem C9_join_independent_of_completion_order (rows : List RaceRow) (evt : String)
    (c1 c2 : List (String × List Athlete))
    (hperm : c1.Perm c2) (hnd : (c1.map Prod.fst).Nodup) :
    joinRows (build_lineups c1) evt rows = joinRows (build_lineups c2) evt rows
    ∧ joinRows (build_lineups c1) evt rows
        = rows.filterMap (joinRow (build_lineups c1) evt) := by
  have hlook : ∀ k, dlookup k (build_lineups c1) = dlookup k (build_lineups c2) := by
    intro k
    rw [dlookup_build_lineups c1 k hnd,
      dlookup_build_lineups c2 k (((hperm.map Prod.fst).nodup_iff).mp hnd)]
    exact dlookup_perm c1 c2 k hperm hnd
  have hrow : ∀ info, joinRow (build_lineups c1) evt info
      = joinRow (build_lineups c2) evt info :=
    fun info => joinRow_congr _ _ evt info hlook
  constructor
  · unfold joinRows
    have hfun : (fun (acc : List ResultRecord) info =>
        appendIfSome acc (joinRow (build_lineups c1) evt info))
        = (fun acc info => appendIfSome acc (joinRow (build_lineups c2) evt info)) := by
      funext acc info
      rw [hrow info]
    rw [hfun]
  · exact joinRows_eq_filterMap (build_lineups c1) evt rows

/-- Witness for C9 at a concrete input: two completion orders of the same
two fetched boats. -/
theorem C9_join_independent_of_completion_order_witness :
    ([(("17" : String), ([] : List Athlete)), ("18", [])]).Perm [("18", []), ("17", [])]
    ∧ (([(("17" : String), ([] : List Athlete)), ("18", [])]).map Prod.fst).Nodup
    ∧ (joinRows (build_lineups [("17", []), ("18", [])]) "E" []
        = joinRows (build_lineups [("18", []), ("17", [])]) "E" []
      ∧ joinRows (build_lineups [("17", []), ("18", [])]) "E" []
        = ([] : List RaceRow).filterMap (joinRow (build_lineups [("17", []), ("18", [])]) "E")) :=
  ⟨List.Perm.swap ("18", []) ("17", []) [],
   by decide,
   C9_join_independent_of_completion_order [] "E" _ _
     (List.Perm.swap ("18", []) ("17", []) []) (by decide)⟩

/-! ## Aggregation lemmas -/

theorem agget_dinsert_self (m : AggMap) (k : String) (v : AthleteAgg) :
    agget (dinsert m k v) k = v := by
  unfold agget
  rw [dlookup_dinsert_self]
  rfl

theorem agget_dinsert_ne (m : AggMap) (k k' : String) (v : AthleteAgg)
    (h : k' ≠ k) : agget (dinsert m k v) k' = agget m k' := by
  unfold agget
  rw [dlookup_dinsert_ne m k k' v h]

theorem step_athlete_mem (r : ResultRecord) (st : AggMap × List (String × RaceId))
    (a : Athlete) (hs : (normalize_name a.name, race_id_of r) ∈ st.2) :
    step_athlete r st a = st := by
  unfold step_athlete
  simp only [hs, if_pos]

theorem step_athlete_not_mem (r : ResultRecord) (st : AggMap × List (String × RaceId))
    (a : Athlete) (hs : ¬ (normalize_name a.name, race_id_of r) ∈ st.2) :
    step_athlete r st a =
      (dinsert st.1 (normalize_name a.name)
        (upd_agg r a (agget st.1 (normalize_name a.name))),
       st.2 ++ [(normalize_name a.name, race_id_of r)]) := by
  unfold step_athlete
  simp only [hs, if_neg, if_false, reduceIte]

/-- A key matched by none of a record's athletes is untouched by the
per-record fold. -/
theorem step_fold_untouched (r : ResultRecord) (k : String) :
    ∀ (as : List Athlete) (m : AggMap) (seen : List (String × RaceId)),
      (∀ a ∈ as, normalize_name a.name ≠ k) →
      dlookup k ((as.foldl (step_athlete r) (m, seen)).1) = dlookup k m := by
  intro as
  induction as with
  | nil => intro m seen _; rfl
  | cons a as ih =>
    intro m seen h
    have hk : normalize_name a.name ≠ k := h a (List.mem_cons_self a as)
    have htl : ∀ a' ∈ as, normalize_name a'.name ≠ k :=
      fun a' ha' => h a' (List.mem_cons_of_mem _ ha')
    rw [List.foldl_cons]
    by_cases hs : (normalize_name a.name, race_id_of r) ∈ seen
    · rw [step_athlete_mem r (m, seen) a hs]
      exact ih m seen htl
    · rw [step_athlete_not_mem r (m, seen) a hs, ih _ _ htl]
      exact dlookup_dinsert_ne _ _ _ _ (fun hc => hk hc.symm)

/-- Once the (key, race-identity) pair is in `seen_names`, the per-record
fold never touches that key again. -/
theorem step_fold_seen (r : ResultRecord) (k : String) :
    ∀ (as : List Athlete) (m : AggMap) (seen : List (String × RaceId)),
      (k, race_id_of r) ∈ seen →
      dlookup k ((as.foldl (step_athlete r) (m, seen)).1) = dlookup k m := by
  intro as
  induction as with
  | nil => intro m seen _; rfl
  | cons a as ih =>
    intro m seen hseen
    rw [List.foldl_cons]
    by_cases hs : (normalize_name a.name, race_id_of r) ∈ seen
    · rw [step_athlete_mem r (m, seen) a hs]
      exact ih m seen hseen
    · have hk : normalize_name a.name ≠ k := by
        intro hc
        exact hs (hc ▸ hseen)
      rw [step_athlete_not_mem r (m, seen) a hs,
        ih _ _ (List.mem_append_left _ hseen)]
      exact dlookup_dinsert_ne _ _ _ _ (fun hc => hk hc.symm)

/-- A key matched by at least one of a record's athletes gains exactly one
participation entry from the per-record fold (when its pair is not yet in
`seen_names`). -/
theorem step_fold_adds (r : ResultRecord) (k : String) :
    ∀ (as : List Athlete) (m : AggMap) (seen : List (String × RaceId)),
      (k, race_id_of r) ∉ seen →
      (∃ a ∈ as, normalize_name a.name = k) →
      (agget ((as.foldl (step_athlete r) (m, seen)).1) k).races.length
        = (agget m k).races.length + 1 := by
  intro as
  induction as with
  | nil =>
    intro m seen _ hex
    simp at hex
  | cons a as ih =>
    intro m seen hseen hex
    rw [List.foldl_cons]
    by_cases hk : normalize_name a.name = k
    · have hs : (normalize_name a.name, race_id_of r) ∉ seen := by
        rw [hk]
        exact hseen
      rw [step_athlete_not_mem r (m, seen) a hs]
      have hseen2 : (k, race_id_of r) ∈
          seen ++ [(normalize_name a.name, race_id_of r)] := by
        rw [hk]
        exact List.mem_append_right _ (List.mem_singleton.mpr rfl)
      have hpres := step_fold_seen r k as
        (dinsert m (normalize_name a.name)
          (upd_agg r a (agget m (normalize_name a.name))))
        (seen ++ [(normalize_name a.name, race_id_of r)]) hseen2
      unfold agget at *
      rw [hpres, hk, dlookup_dinsert_self]
      simp [upd_agg, agget]
    · by_cases hs : (normalize_name a.name, race_id_of r) ∈ seen
      · rw [step_athlete_mem r (m, seen) a hs]
        rcases hex with ⟨a', ha', hka⟩
        rcases List.mem_cons.mp ha' with h1 | h2
        · exact absurd (h1 ▸ hka) hk
        · exact ih m seen hseen ⟨a', h2, hka⟩
      · rw [step_athlete_not_mem r (m, seen) a hs]
        have hseen2 : (k, race_id_of r) ∉
            seen ++ [(normalize_name a.name, race_id_of r)] := by
          intro hc
          rcases List.mem_append.mp hc with h1 | h2
          · exact hseen h1
          · rcases List.mem_singleton.mp h2 with h3
            exact hk (congrArg Prod.fst h3).symm
        rcases hex with ⟨a', ha', hka⟩
        rcases List.mem_cons.mp ha' with h1 | h2
        · exact absurd (h1 ▸ hka) hk
        · rw [ih _ _ hseen2 ⟨a', h2, hka⟩]
          unfold agget
          rw [dlookup_dinsert_ne _ _ _ _ (fun hc => hk hc.symm)]

/-- `pyStrip` fixes the sentinel string. -/
theorem pyStrip_999 : pyStrip "999" = "999" := by decide

/-! ## Claim C3: DNS/DNF records contribute nothing -/

/-- Claim C3: a record with an empty finish time or the place sentinel
`"999"` is skipped whole by `aggregate_athletes` (the map is unchanged),
and a key drawn solely from such records — every input record either fails
the filter or contains no athlete with that normalized name — is absent
from the returned mapping. -/
theorem C3_dnf_records_contribute_nothing :
    (∀ (m : AggMap) (r : ResultRecord),
        r.finish = "" ∨ r.place = "999" → process_result m r = m)
    ∧ (∀ (rs : List ResultRecord) (k : String),
        (∀ r ∈ rs, (r.finish = "" ∨ r.place = "999")
          ∨ (∀ a ∈ r.athletes, normalize_name a.name ≠ k)) →
        dlookup k (aggregate_athletes rs) = none) := by
  have hskip : ∀ (m : AggMap) (r : ResultRecord),
      r.finish = "" ∨ r.place = "999" → process_result m r = m := by
    intro m r h
    unfold process_result
    rw [if_pos]
    rcases h with h1 | h2
    · exact Or.inl h1
    · exact Or.inr (by rw [h2]; exact pyStrip_999)
  refine ⟨hskip, ?_⟩
  have hstep : ∀ (m : AggMap) (r : ResultRecord) (k : String),
      dlookup k m = none →
      ((r.finish = "" ∨ r.place = "999")
        ∨ (∀ a ∈ r.athletes, normalize_name a.name ≠ k)) →
      dlookup k (process_result m r) = none := by
    intro m r k hm h
    rcases h with h1 | h2
    · rw [hskip m r h1]
      exact hm
    · unfold process_result
      by_cases hb : r.finish = "" ∨ pyStrip r.place = "999"
      · rw [if_pos hb]
        exact hm
      · rw [if_neg hb, step_fold_untouched r k r.athletes m [] h2]
        exact hm
  intro rs k h
  unfold aggregate_athletes
  suffices hgen : ∀ (rs : List ResultRecord) (m : AggMap),
      dlookup k m = none →
      (∀ r ∈ rs, (r.finish = "" ∨ r.place = "999")
        ∨ (∀ a ∈ r.athletes, normalize_name a.name ≠ k)) →
      dlookup k (rs.foldl process_result m) = none by
    exact hgen rs [] rfl h
  intro rs'
  induction rs' with
  | nil => intro m hm _; exact hm
  | cons r rs' ih =>
    intro m hm h'
    rw [List.foldl_cons]
    exact ih _ (hstep m r k hm (h' r (List.mem_cons_self r rs')))
      (fun r' hr' => h' r' (List.mem_cons_of_mem _ hr'))

/-- Witness for C3 at a concrete input: a place-999 record is skipped and
its athlete is absent from the aggregate. -/
theorem C3_dnf_records_contribute_nothing_witness :
    wRecBad.place = "999"
    ∧ process_result [] wRecBad = []
    ∧ dlookup "A B" (aggregate_athletes [wRecBad]) = none :=
  ⟨rfl,
   C3_dnf_records_contribute_nothing.1 [] wRecBad (Or.inr rfl),
   C3_dnf_records_contribute_nothing.2 [wRecBad] "A B"
     (by
       intro r hr
       rcases List.mem_singleton.mp hr with h
       exact Or.inl (Or.inr (h ▸ rfl)))⟩

/-! ## Claim C1: deduplication scope (corrected) -/

/-- Counterexample to claim C1 as stated: two `ResultRecord`s with identical
race-identity tuples `("E", "F", "1", "4", "C", "1:00")`, both containing an
athlete whose name normalizes to `"A B"` ("A B" and "A C. B", via the two
lineup shapes).  `aggregate_athletes` emits two participation entries for
that athlete across the pair, not one: the `seen_names` dedup set is reset
for each record. -/
theorem C1_counterexample :
    (agget (aggregate_athletes [wRecGood, wRecGood2]) "A B").races.length = 2
    ∧ ¬ (agget (aggregate_athletes [wRecGood, wRecGood2]) "A B").races.length = 1 := by
  constructor
  · decide
  · decide

/-- Claim C1, amended: the race-identity dedup applies only within a single
record — within one record each normalized key receives exactly one
participation entry even if matched several times, and across a pair of
records with identical race-identity tuples the athlete receives one entry
per record, hence two entries, not one. -/
theorem C1_amended_dedup_within_record (r1 r2 : ResultRecord) (k : String)
    (_hid : race_id_of r1 = race_id_of r2)
    (h1f : r1.finish ≠ "") (h1p : pyStrip r1.place ≠ "999")
    (h2f : r2.finish ≠ "") (h2p : pyStrip r2.place ≠ "999")
    (ha1 : ∃ a ∈ r1.athletes, normalize_name a.name = k)
    (ha2 : ∃ a ∈ r2.athletes, normalize_name a.name = k) :
    (agget (aggregate_athletes [r1]) k).races.length = 1
    ∧ (agget (aggregate_athletes [r1, r2]) k).races.length = 2 := by
  have hp1 : process_result ([] : AggMap) r1
      = (r1.athletes.foldl (step_athlete r1) ([], [])).1 := by
    unfold process_result
    rw [if_neg]
    intro hc
    rcases hc with hc1 | hc2
    · exact h1f hc1
    · exact h1p hc2
  have hlen1 : (agget (process_result ([] : AggMap) r1) k).races.length = 1 := by
    rw [hp1]
    have h := step_fold_adds r1 k r1.athletes [] [] (by simp) ha1
    rw [h]
    simp [agget, dlookup, emptyAgg]
  constructor
  · show (agget (List.foldl process_result [] [r1]) k).races.length = 1
    simpa using hlen1
  · show (agget (List.foldl process_result [] [r1, r2]) k).races.length = 2
    have hp2 : process_result (process_result ([] : AggMap) r1) r2
        = (r2.athletes.foldl (step_athlete r2)
            (process_result ([] : AggMap) r1, [])).1 := by
      unfold process_result
      rw [if_neg]
      intro hc
      rcases hc with hc1 | hc2
      · exact h2f hc1
      · exact h2p hc2
    have h2 := step_fold_adds r2 k r2.athletes (process_result ([] : AggMap) r1) []
      (by simp) ha2
    simp only [List.foldl_cons, List.foldl_nil]
    rw [hp2, h2, hlen1]

/-- Witness for the amended C1 at the concrete record pair of the
counterexample. -/
theorem C1_amended_dedup_within_record_witness :
    (race_id_of wRecGood = race_id_of wRecGood2
      ∧ wRecGood.finish ≠ "" ∧ pyStrip wRecGood.place ≠ "999"
      ∧ wRecGood2.finish ≠ "" ∧ pyStrip wRecGood2.place ≠ "999"
      ∧ (∃ a ∈ wRecGood.athletes, normalize_name a.name = "A B")
      ∧ (∃ a ∈ wRecGood2.athletes, normalize_name a.name = "A B"))
    ∧ ((agget (aggregate_athletes [wRecGood]) "A B").races.length = 1
      ∧ (agget (aggregate_athletes [wRecGood, wRecGood2]) "A B").races.length = 2) :=
  ⟨⟨by decide, by decide, by decide, by decide, by decide, by decide, by decide⟩,
   C1_amended_dedup_within_record wRecGood wRecGood2 "A B"
     (by decide) (by decide) (by decide) (by decide) (by decide)
     (by decide) (by decide)⟩

/-! ## Claim C4: club filter on fetched lineups -/

/-- A non-empty needle is never a substring of the empty haystack. -/
theorem containsCI_empty_hay (cn : String) (h : cn ≠ "") : containsCI "" cn = false := by
  unfold containsCI
  have hne : cn.toList ≠ [] := by
    intro hc
    apply h
    cases cn with
    | mk data =>
      simp only [String.toList] at hc
      rw [hc]
  show substrChars (lowerChars cn.toList) (lowerChars "".toList) = false
  have he : lowerChars "".toList = [] := rfl
  rw [he]
  unfold substrChars
  cases hl : cn.toList with
  | nil => exact absurd hl hne
  | cons c cs => simp [lowerChars, List.isEmpty]

/-- The source's club filter predicate agrees pointwise with the spec's
wording: the extra `a["club"]` truthiness test in the source is redundant,
because a non-empty club name is never a substring of an empty club text. -/
theorem keep_athlete_eq_spec (cn : String) (a : Athlete) :
    keep_athlete cn a = club_match_spec cn a := by
  unfold keep_athlete club_match_spec
  by_cases h1 : cn = ""
  · subst h1
    simp
  · by_cases h2 : a.club = ""
    · rw [h2]
      simp [h1, containsCI_empty_hay cn h1]
    · by_cases h3 : containsCI a.club cn <;> simp [h1, h2, h3]

/-- Claim C4: for a row whose boat has a non-empty fetched lineup, the
joined athlete list is the lineup filtered to athletes whose club text
case-insensitively contains the row's club name as a substring (everyone
when the row's club name is empty), falling back to the full unfiltered
lineup when the filter keeps nothing. -/
theorem C4_club_filter (boat_lineups : List (String × List Athlete))
    (info : RaceRow) (bid : String) (lu : List Athlete)
    (hb : info.boat_id = some bid)
    (hl : dlookup bid boat_lineups = some lu)
    (hne : lu ≠ []) :
    resolve_athletes boat_lineups info =
      (if lu.filter (club_match_spec info.club_name) ≠ []
       then lu.filter (club_match_spec info.club_name)
       else lu) := by
  unfold resolve_athletes
  rw [hb]
  simp only [hl]
  rw [if_pos hne]
  have hfold : lu.foldl
      (fun acc a => if keep_athlete info.club_name a then acc ++ [a] else acc) []
      = lu.filter (club_match_spec info.club_name) := by
    rw [foldl_push_filter (keep_athlete info.club_name) lu [], List.nil_append]
    exact List.filter_congr (fun a _ => keep_athlete_eq_spec info.club_name a)
  simp only [hfold]

/-- Witness for C4 at a concrete input: a lineup with one matching and one
non-matching club against a lower-case row club name. -/
theorem C4_club_filter_witness :
    (wRowLineup.boat_id = some "9"
      ∧ dlookup "9" [("9", wLineup)] = some wLineup
      ∧ wLineup ≠ [])
    ∧ resolve_athletes [("9", wLineup)] wRowLineup =
        (if wLineup.filter (club_match_spec wRowLineup.club_name) ≠ []
         then wLineup.filter (club_match_spec wRowLineup.club_name)
         else wLineup) :=
  ⟨⟨rfl, rfl, by decide⟩,
   C4_club_filter [("9", wLineup)] wRowLineup "9" wLineup rfl rfl (by decide)⟩

/-! ## Claim C5: synthetic fallback and row dropping -/

/-- Under any of the three no-usable-lineup conditions, the athlete
resolution block yields the synthetic athlete exactly when the boat label is
non-empty. -/
theorem resolve_athletes_no_lineup (boat_lineups : List (String × List Athlete))
    (info : RaceRow) (h : no_usable_lineup boat_lineups info) :
    resolve_athletes boat_lineups info =
      (if info.boat_label ≠ "" then [synth_athlete info] else []) := by
  unfold resolve_athletes
  rcases h with h1 | ⟨bid, hb, h2⟩
  · rw [h1]
  · rw [hb]
    rcases h2 with h3 | h4
    · simp only [h3]
    · simp only [h4]
      rw [if_neg (by simp)]

/-- A no-usable-lineup row with a non-empty label joins to the synthetic
single-athlete record. -/
theorem joinRow_no_lineup (boat_lineups : List (String × List Athlete))
    (evt : String) (info : RaceRow)
    (h : no_usable_lineup boat_lineups info) (hlbl : info.boat_label ≠ "") :
    joinRow boat_lineups evt info =
      some { event := evt, race := info.race_name, place := info.place,
             bow := info.bow, club := info.club_name,
             athletes := [synth_athlete info], finish := info.finish,
             margin := info.margin, num_boats := info.num_boats } := by
  unfold joinRow
  rw [resolve_athletes_no_lineup boat_lineups info h, if_pos hlbl]
  simp

/-- Claim C5: a row whose boat has no usable lineup (no boat id, boat id
absent from the fetched map, or empty fetched lineup) is joined with the
single synthetic athlete built from the boat's display label when that
label is non-empty; a row still left with zero athletes (empty label) is
dropped from the join's output while the remaining rows are processed
normally. -/
theorem C5_synthetic_fallback_and_drop (boat_lineups : List (String × List Athlete))
    (evt : String) (info : RaceRow)
    (h : no_usable_lineup boat_lineups info) :
    (info.boat_label ≠ "" →
      joinRow boat_lineups evt info =
        some { event := evt, race := info.race_name, place := info.place,
               bow := info.bow, club := info.club_name,
               athletes := [synth_athlete info], finish := info.finish,
               margin := info.margin, num_boats := info.num_boats })
    ∧ (info.boat_label = "" →
        joinRow boat_lineups evt info = none
        ∧ ∀ pre post,
            joinRows boat_lineups evt (pre ++ info :: post)
              = joinRows boat_lineups evt pre ++ joinRows boat_lineups evt post) := by
  have hres := resolve_athletes_no_lineup boat_lineups info h
  constructor
  · exact joinRow_no_lineup boat_lineups evt info h
  · intro hlbl
    have hnone : joinRow boat_lineups evt info = none := by
      unfold joinRow
      rw [hres, if_neg (by simp [hlbl])]
    refine ⟨hnone, ?_⟩
    intro pre post
    rw [joinRows_eq_filterMap, joinRows_eq_filterMap, joinRows_eq_filterMap,
      List.filterMap_append]
    simp [List.filterMap_cons, hnone]

/-- Witness for C5 at concrete inputs: a labelled row joins as the synthetic
athlete; an unlabelled row is dropped while its neighbours survive. -/
theorem C5_synthetic_fallback_and_drop_witness :
    (no_usable_lineup [] wRowLabel ∧ no_usable_lineup [] wRowNoLabel)
    ∧ (wRowLabel.boat_label ≠ "" →
        joinRow [] "E" wRowLabel =
          some { event := "E", race := wRowLabel.race_name, place := wRowLabel.place,
                 bow := wRowLabel.bow, club := wRowLabel.club_name,
                 athletes := [synth_athlete wRowLabel], finish := wRowLabel.finish,
                 margin := wRowLabel.margin, num_boats := wRowLabel.num_boats })
    ∧ (wRowNoLabel.boat_label = "" →
        joinRow [] "E" wRowNoLabel = none
        ∧ ∀ pre post,
            joinRows [] "E" (pre ++ wRowNoLabel :: post)
              = joinRows [] "E" pre ++ joinRows [] "E" post) :=
  ⟨⟨Or.inl rfl, Or.inl rfl⟩,
   (C5_synthetic_fallback_and_drop [] "E" wRowLabel (Or.inl rfl)).1,
   (C5_synthetic_fallback_and_drop [] "E" wRowNoLabel (Or.inl rfl)).2⟩

/-! ## Claim C10: synthetic seat is null, age overwritten to empty -/

/-- Claim C10: a record joined via the boat-label fallback carries exactly
the synthetic athlete dict — seat present with the null sentinel (not the
empty string) and no age field; aggregating such a record under any prior
map appends a participation entry whose seat is null and overwrites the
stored age for that normalized key with the empty string. -/
theorem C10_synthetic_seat_null_age_overwritten
    (boat_lineups : List (String × List Athlete)) (evt : String) (info : RaceRow)
    (m : AggMap) (r : ResultRecord)
    (h : no_usable_lineup boat_lineups info) (hlbl : info.boat_label ≠ "")
    (hjoin : joinRow boat_lineups evt info = some r)
    (hfin : r.finish ≠ "") (hpl : pyStrip r.place ≠ "999") :
    r.athletes = [synth_athlete info]
    ∧ (synth_athlete info).seat = none
    ∧ (synth_athlete info).age = none
    ∧ (agget (process_result m r) (normalize_name info.boat_label)).age = ""
    ∧ (agget (process_result m r) (normalize_name info.boat_label)).races.getLast?
        = some (mk_participation r (synth_athlete info))
    ∧ (mk_participation r (synth_athlete info)).seat = none := by
  have hr : r = { event := evt, race := info.race_name, place := info.place,
                  bow := info.bow, club := info.club_name,
                  athletes := [synth_athlete info], finish := info.finish,
                  margin := info.margin, num_boats := info.num_boats } := by
    have h5 := joinRow_no_lineup boat_lineups evt info h hlbl
    rw [hjoin] at h5
    exact Option.some.inj h5
  have hathletes : r.athletes = [synth_athlete info] := by rw [hr]
  have hproc : process_result m r
      = (r.athletes.foldl (step_athlete r) (m, [])).1 := by
    unfold process_result
    rw [if_neg]
    intro hc
    rcases hc with hc1 | hc2
    · exact hfin hc1
    · exact hpl hc2
  have hkey : normalize_name (synth_athlete info).name
      = normalize_name info.boat_label := rfl
  have hfold : (r.athletes.foldl (step_athlete r) (m, [])).1
      = dinsert m (normalize_name info.boat_label)
          (upd_agg r (synth_athlete info)
            (agget m (normalize_name info.boat_label))) := by
    rw [hathletes, List.foldl_cons, List.foldl_nil,
      step_athlete_not_mem r (m, []) (synth_athlete info) (by simp), hkey]
  refine ⟨hathletes, rfl, rfl, ?_, ?_, rfl⟩
  · rw [hproc, hfold, agget_dinsert_self]
    rfl
  · rw [hproc, hfold, agget_dinsert_self]
    show ((agget m (normalize_name info.boat_label)).races
      ++ [mk_participation r (synth_athlete info)]).getLast? = _
    rw [List.getLast?_concat]

/-- Witness for C10 at a concrete input: the labelled fallback row, joined
and aggregated on top of a prior map that already records an age for the
same key. -/
theorem C10_synthetic_seat_null_age_overwritten_witness :
    (no_usable_lineup [] wRowLabel
      ∧ wRowLabel.boat_label ≠ ""
      ∧ joinRow [] "E" wRowLabel =
          some { event := "E", race := wRowLabel.race_name, place := wRowLabel.place,
                 bow := wRowLabel.bow, club := wRowLabel.club_name,
                 athletes := [synth_athlete wRowLabel], finish := wRowLabel.finish,
                 margin := wRowLabel.margin, num_boats := wRowLabel.num_boats }
      ∧ ({ event := "E", race := wRowLabel.race_name, place := wRowLabel.place,
           bow := wRowLabel.bow, club := wRowLabel.club_name,
           athletes := [synth_athlete wRowLabel], finish := wRowLabel.finish,
           margin := wRowLabel.margin, num_boats := wRowLabel.num_boats }
          : ResultRecord).finish ≠ "")
    ∧ (agget
        (process_result
          [(normalize_name wRowLabel.boat_label,
            { races := [], clubs := [], names := [], age := "17" })]
          { event := "E", race := wRowLabel.race_name, place := wRowLabel.place,
            bow := wRowLabel.bow, club := wRowLabel.club_name,
            athletes := [synth_athlete wRowLabel], finish := wRowLabel.finish,
            margin := wRowLabel.margin, num_boats := wRowLabel.num_boats })
        (normalize_name wRowLabel.boat_label)).age = "" :=
  ⟨⟨Or.inl rfl, by decide, by decide, by decide⟩,
   (C10_synthetic_seat_null_age_overwritten [] "E" wRowLabel
      [(normalize_name wRowLabel.boat_label,
        { races := [], clubs := [], names := [], age := "17" })]
      { event := "E", race := wRowLabel.race_name, place := wRowLabel.place,
        bow := wRowLabel.bow, club := wRowLabel.club_name,
        athletes := [synth_athlete wRowLabel], finish := wRowLabel.finish,
        margin := wRowLabel.margin, num_boats := wRowLabel.num_boats }
      (Or.inl rfl) (by decide) (by decide) (by decide) (by decide)).2.2.2.1⟩

/-! ## Claim C6: name normalization is idempotent

The proof characterises the normalizer's output: it is either the stripped
raw input (when no token survives parsing), a single clean token, or two
clean tokens joined by one space — and each of these shapes is a fixed
point of the whole pipeline. -/

theorem head_mem_of_head? (l : List Char) (c : Char) (h : l.head? = some c) :
    c ∈ l := by
  cases l with
  | nil => cases h
  | cons a t =>
    have ha := Option.some.inj h
    rw [← ha]
    exact List.mem_cons_self a t

theorem last_mem_of_getLast? (l : List Char) (c : Char) (h : l.getLast? = some c) :
    c ∈ l := by
  cases l with
  | nil => cases h
  | cons a t =>
    rw [List.getLast?_eq_getLast _ (by simp)] at h
    rw [← Option.some.inj h]
    exact List.getLast_mem _

theorem dropWhile_head_not (p : Char → Bool) :
    ∀ (l : List Char) (c : Char), (l.dropWhile p).head? = some c → p c = false := by
  intro l
  induction l with
  | nil => intro c h; cases h
  | cons a l ih =>
    intro c h
    rw [List.dropWhile_cons] at h
    by_cases hp : p a = true
    · rw [if_pos hp] at h
      exact ih c h
    · rw [if_neg hp] at h
      have ha := Option.some.inj h
      rw [← ha]
      revert hp
      cases p a <;> simp

theorem dropWhile_eq_self_of_head (p : Char → Bool) (l : List Char)
    (h : ∀ c, l.head? = some c → p c = false) : l.dropWhile p = l := by
  cases l with
  | nil => rfl
  | cons a l =>
    rw [List.dropWhile_cons, if_neg]
    rw [h a rfl]
    simp

theorem dropWhile_eq_drop (p : Char → Bool) :
    ∀ (l : List Char), ∃ n, l.dropWhile p = l.drop n := by
  intro l
  induction l with
  | nil => exact ⟨0, rfl⟩
  | cons a l ih =>
    by_cases hp : p a = true
    · rcases ih with ⟨n, hn⟩
      exact ⟨n + 1, by rw [List.dropWhile_cons, if_pos hp]; exact hn⟩
    · exact ⟨0, by rw [List.dropWhile_cons, if_neg hp, List.drop_zero]⟩

theorem dropWhile_suffix_self (p : Char → Bool) (l : List Char) :
    l.dropWhile p <:+ l := by
  rcases dropWhile_eq_drop p l with ⟨n, hn⟩
  rw [hn]
  exact List.drop_suffix n l

theorem head?_of_leading_part (l₁ l₂ : List Char) (h : l₁ <+: l₂) (hne : l₁ ≠ []) :
    l₂.head? = l₁.head? := by
  rcases h with ⟨t, rfl⟩
  cases l₁ with
  | nil => exact absurd rfl hne
  | cons a l => rfl

theorem stripChars_leading_part (l : List Char) : stripChars l <+: l.dropWhile isWS := by
  unfold stripChars
  have h := dropWhile_suffix_self isWS (l.dropWhile isWS).reverse
  have h2 := List.reverse_prefix.mpr h
  rw [List.reverse_reverse] at h2
  exact h2

theorem stripChars_head_not (l : List Char) (c : Char)
    (h : (stripChars l).head? = some c) : isWS c = false := by
  have hne : stripChars l ≠ [] := by
    intro hc
    rw [hc] at h
    cases h
  have hp := head?_of_leading_part _ _ (stripChars_leading_part l) hne
  exact dropWhile_head_not isWS _ c (hp.trans h)

theorem stripChars_getLast_not (l : List Char) (c : Char)
    (h : (stripChars l).getLast? = some c) : isWS c = false := by
  unfold stripChars at h
  rw [List.getLast?_reverse] at h
  exact dropWhile_head_not isWS _ c h

theorem stripChars_eq_self (l : List Char)
    (h1 : ∀ c, l.head? = some c → isWS c = false)
    (h2 : ∀ c, l.getLast? = some c → isWS c = false) : stripChars l = l := by
  unfold stripChars
  rw [dropWhile_eq_self_of_head isWS l h1,
    dropWhile_eq_self_of_head isWS l.reverse
      (fun c hc => h2 c (by rw [← List.head?_reverse]; exact hc)),
    List.reverse_reverse]

theorem stripChars_idem (l : List Char) : stripChars (stripChars l) = stripChars l :=
  stripChars_eq_self _ (stripChars_head_not l) (stripChars_getLast_not l)

theorem stripChars_nil : stripChars [] = [] := rfl

/-- `stripChars` fixes a fully whitespace-free list. -/
theorem stripChars_of_token (w : List Char) (hws : ∀ c ∈ w, isWS c = false) :
    stripChars w = w :=
  stripChars_eq_self w (fun c hc => hws c (head_mem_of_head? w c hc))
    (fun c hc => hws c (last_mem_of_getLast? w c hc))

theorem removeQuoted_no_quote : ∀ (l : List Char) (b : Bool),
    '"' ∉ removeQuoted l b := by
  intro l
  induction l with
  | nil => intro b; simp [removeQuoted]
  | cons c cs ih =>
    intro b
    unfold removeQuoted
    by_cases hq : c = '"'
    · rw [if_pos hq]
      exact ih _
    · rw [if_neg hq]
      cases b with
      | true => simpa using ih true
      | false =>
        simp only [Bool.false_eq_true, if_false]
        intro hc
        rcases List.mem_cons.mp hc with h1 | h2
        · exact hq h1.symm
        · exact ih false h2

theorem removeQuoted_eq_self : ∀ (l : List Char), '"' ∉ l →
    removeQuoted l false = l := by
  intro l
  induction l with
  | nil => intro _; rfl
  | cons c cs ih =>
    intro h
    have hq : ¬ c = '"' := by
      intro hc
      exact h (by rw [hc] at *; exact List.mem_cons_self _ _)
    unfold removeQuoted
    rw [if_neg hq]
    simp only [Bool.false_eq_true, if_false]
    rw [ih (fun hc => h (List.mem_cons_of_mem c hc))]

theorem wordsAux_ne_nil : ∀ (l cur : List Char) (w : List Char),
    w ∈ wordsAux l cur → w ≠ [] := by
  intro l
  induction l with
  | nil =>
    intro cur w hw
    unfold wordsAux at hw
    by_cases hc : cur.isEmpty
    · rw [if_pos hc] at hw
      cases hw
    · rw [if_neg hc] at hw
      rcases List.mem_singleton.mp hw with rfl
      have hcur : cur ≠ [] := by simpa [List.isEmpty_iff] using hc
      simpa using hcur
  | cons a cs ih =>
    intro cur w hw
    unfold wordsAux at hw
    by_cases ha : isWS a = true
    · rw [if_pos ha] at hw
      by_cases hc : cur.isEmpty
      · rw [if_pos hc] at hw
        exact ih [] w hw
      · rw [if_neg hc] at hw
        rcases List.mem_cons.mp hw with rfl | h2
        · have hcur : cur ≠ [] := by simpa [List.isEmpty_iff] using hc
          simpa using hcur
        · exact ih [] w h2
    · rw [if_neg ha] at hw
      exact ih (a :: cur) w hw

theorem wordsAux_chars : ∀ (l cur : List Char), (∀ c ∈ cur, isWS c = false) →
    ∀ w ∈ wordsAux l cur, ∀ c ∈ w, isWS c = false ∧ (c ∈ l ∨ c ∈ cur) := by
  intro l
  induction l with
  | nil =>
    intro cur hcur w hw c hc
    unfold wordsAux at hw
    by_cases hce : cur.isEmpty
    · rw [if_pos hce] at hw
      cases hw
    · rw [if_neg hce] at hw
      rcases List.mem_singleton.mp hw with rfl
      have hcc : c ∈ cur := List.mem_reverse.mp hc
      exact ⟨hcur c hcc, Or.inr hcc⟩
  | cons a cs ih =>
    intro cur hcur w hw c hc
    unfold wordsAux at hw
    by_cases ha : isWS a = true
    · rw [if_pos ha] at hw
      by_cases hce : cur.isEmpty
      · rw [if_pos hce] at hw
        rcases ih [] (by simp) w hw c hc with ⟨h1, h2⟩
        exact ⟨h1, Or.inl (List.mem_cons_of_mem a (h2.resolve_right (by simp)))⟩
      · rw [if_neg hce] at hw
        rcases List.mem_cons.mp hw with rfl | h2
        · have hcc : c ∈ cur := List.mem_reverse.mp hc
          exact ⟨hcur c hcc, Or.inr hcc⟩
        · rcases ih [] (by simp) w h2 c hc with ⟨h1, h3⟩
          exact ⟨h1, Or.inl (List.mem_cons_of_mem a (h3.resolve_right (by simp)))⟩
    · rw [if_neg ha] at hw
      have ha2 : isWS a = false := by
        revert ha
        cases isWS a <;> simp
      have hcur2 : ∀ c2 ∈ a :: cur, isWS c2 = false := by
        intro c2 hc2
        rcases List.mem_cons.mp hc2 with rfl | h3
        · exact ha2
        · exact hcur c2 h3
      rcases ih (a :: cur) hcur2 w hw c hc with ⟨h1, h2 | h2⟩
      · exact ⟨h1, Or.inl (List.mem_cons_of_mem a h2)⟩
      · rcases List.mem_cons.mp h2 with rfl | h3
        · exact ⟨h1, Or.inl (List.mem_cons_self _ _)⟩
        · exact ⟨h1, Or.inr h3⟩

theorem wordsAux_append_nonws : ∀ (f : List Char), (∀ c ∈ f, isWS c = false) →
    ∀ (t cur : List Char), wordsAux (f ++ t) cur = wordsAux t (f.reverse ++ cur) := by
  intro f
  induction f with
  | nil => intro _ t cur; simp
  | cons a f ih =>
    intro h t cur
    have ha : isWS a = false := h a (List.mem_cons_self a f)
    rw [List.cons_append]
    have hstep : wordsAux (a :: (f ++ t)) cur = wordsAux (f ++ t) (a :: cur) := by
      simp only [wordsAux]
      rw [if_neg (by rw [ha]; simp)]
    rw [hstep, ih (fun c hc => h c (List.mem_cons_of_mem a hc)) t (a :: cur)]
    simp

theorem wordsAux_single (f : List Char) (hne : f ≠ [])
    (hws : ∀ c ∈ f, isWS c = false) : wordsAux f [] = [f] := by
  have h := wordsAux_append_nonws f hws [] []
  rw [List.append_nil] at h
  rw [h]
  unfold wordsAux
  rw [if_neg (by simpa [List.isEmpty_iff] using hne)]
  simp

theorem wordsAux_pair (f la : List Char) (hf : f ≠ []) (hla : la ≠ [])
    (hwf : ∀ c ∈ f, isWS c = false) (hwl : ∀ c ∈ la, isWS c = false) :
    wordsAux (f ++ ' ' :: la) [] = [f, la] := by
  rw [wordsAux_append_nonws f hwf (' ' :: la) []]
  unfold wordsAux
  rw [if_pos (by decide)]
  rw [if_neg (by simpa [List.isEmpty_iff] using hf)]
  rw [wordsAux_single la hla hwl]
  simp

/-- Every token produced by the modelled parser is non-empty,
whitespace-free, quote-free, and not a title/suffix token. -/
theorem parseTokens_token_props (t : List Char) (w : List Char)
    (h : w ∈ parseTokens t) :
    w ≠ [] ∧ (∀ c ∈ w, isWS c = false ∧ ¬ c = '"') ∧ isDropTok w = false := by
  unfold parseTokens words at h
  have hmem := List.mem_filter.mp h
  refine ⟨wordsAux_ne_nil _ [] w hmem.1, ?_, by simpa using hmem.2⟩
  intro c hc
  have h2 := wordsAux_chars (removeQuoted t false) [] (by simp) w hmem.1 c hc
  refine ⟨h2.1, ?_⟩
  intro hq
  have hin : c ∈ removeQuoted t false := h2.2.resolve_right (by simp)
  rw [hq] at hin
  exact removeQuoted_no_quote t false hin

/-- A single clean token parses to itself. -/
theorem parseTokens_of_token (w : List Char) (hne : w ≠ [])
    (hws : ∀ c ∈ w, isWS c = false ∧ ¬ c = '"') (hd : isDropTok w = false) :
    parseTokens w = [w] := by
  unfold parseTokens words
  rw [removeQuoted_eq_self w (fun hq => (hws '"' hq).2 rfl)]
  rw [wordsAux_single w hne (fun c hc => (hws c hc).1)]
  simp [hd]

/-- Two clean tokens joined by a space parse to the two-token list. -/
theorem parseTokens_of_pair (f la : List Char) (hf : f ≠ []) (hla : la ≠ [])
    (hwf : ∀ c ∈ f, isWS c = false ∧ ¬ c = '"')
    (hwl : ∀ c ∈ la, isWS c = false ∧ ¬ c = '"')
    (hdf : isDropTok f = false) (hdl : isDropTok la = false) :
    parseTokens (f ++ ' ' :: la) = [f, la] := by
  unfold parseTokens words
  have hnq : '"' ∉ f ++ ' ' :: la := by
    intro hc
    rcases List.mem_append.mp hc with h1 | h2
    · exact (hwf '"' h1).2 rfl
    · rcases List.mem_cons.mp h2 with h3 | h4
      · exact absurd h3 (by decide)
      · exact (hwl '"' h4).2 rfl
  rw [removeQuoted_eq_self _ hnq]
  rw [wordsAux_pair f la hf hla (fun c hc => (hwf c hc).1) (fun c hc => (hwl c hc).1)]
  simp [hdf, hdl]

/-- Two clean tokens joined by a space strip to themselves. -/
theorem stripChars_of_pair (f la : List Char) (hf : f ≠ []) (hla : la ≠ [])
    (hwf : ∀ c ∈ f, isWS c = false) (hwl : ∀ c ∈ la, isWS c = false) :
    stripChars (f ++ ' ' :: la) = f ++ ' ' :: la := by
  apply stripChars_eq_self
  · intro c hc
    cases f with
    | nil => exact absurd rfl hf
    | cons a t =>
      rw [List.cons_append] at hc
      have := Option.some.inj hc
      rw [← this]
      exact hwf a (List.mem_cons_self a t)
  · intro c hc
    rw [List.getLast?_append_of_ne_nil f (by simp)] at hc
    cases la with
    | nil => exact absurd rfl hla
    | cons b t =>
      rw [List.getLast?_cons_cons] at hc
      exact hwl c (last_mem_of_getLast? (b :: t) c hc)

/-- The normalizer's output when no token survives: the stripped raw
input. -/
theorem normChars_of_nil (l : List Char) (h : parseTokens (stripChars l) = []) :
    normChars l = stripChars l := by
  simp only [normChars, parseFirstLast]
  rw [h]
  simp [stripChars_nil]

/-- The normalizer's output on a single surviving token. -/
theorem normChars_of_single (l w : List Char)
    (h : parseTokens (stripChars l) = [w]) : normChars l = w := by
  have hw := parseTokens_token_props (stripChars l) w
    (by rw [h]; exact List.mem_singleton.mpr rfl)
  simp only [normChars, parseFirstLast]
  rw [h]
  simp only [stripChars_nil, stripChars_of_token w (fun c hc => (hw.2.1 c hc).1)]
  simp [hw.1]

/-- The normalizer's output on two or more surviving tokens: first token,
space, last token. -/
theorem normChars_of_pair (l w y : List Char) (rest : List (List Char))
    (h : parseTokens (stripChars l) = w :: y :: rest) :
    normChars l = w ++ ' ' :: (y :: rest).getLastD [] := by
  have hw := parseTokens_token_props (stripChars l) w
    (by rw [h]; exact List.mem_cons_self _ _)
  have hlamem : (y :: rest).getLastD [] ∈ y :: rest := by
    rw [List.getLastD_eq_getLast?, List.getLast?_eq_getLast _ (by simp)]
    exact List.getLast_mem _
  have hla := parseTokens_token_props (stripChars l) ((y :: rest).getLastD [])
    (by rw [h]; exact List.mem_cons_of_mem w hlamem)
  have hla1 : ¬ (y :: rest).getLast?.getD [] = [] := by
    rw [← List.getLastD_eq_getLast?]
    exact hla.1
  simp only [normChars, parseFirstLast]
  rw [h]
  simp only [stripChars_of_token w (fun c hc => (hw.2.1 c hc).1),
    stripChars_of_token ((y :: rest).getLastD []) (fun c hc => (hla.2.1 c hc).1)]
  simp [hw.1, hla.1, hla1]

/-- Character-level idempotence of the normalizer. -/
theorem normChars_idem (l : List Char) : normChars (normChars l) = normChars l := by
  cases htoks : parseTokens (stripChars l) with
  | nil =>
    rw [normChars_of_nil l htoks,
      normChars_of_nil (stripChars l) (by rw [stripChars_idem]; exact htoks),
      stripChars_idem]
  | cons w rest =>
    cases rest with
    | nil =>
      rw [normChars_of_single l w htoks]
      have hw := parseTokens_token_props (stripChars l) w
        (by rw [htoks]; exact List.mem_singleton.mpr rfl)
      exact normChars_of_single w w (by
        rw [stripChars_of_token w (fun c hc => (hw.2.1 c hc).1)]
        exact parseTokens_of_token w hw.1 hw.2.1 hw.2.2)
    | cons y rest2 =>
      rw [normChars_of_pair l w y rest2 htoks]
      have hw := parseTokens_token_props (stripChars l) w
        (by rw [htoks]; exact List.mem_cons_self _ _)
      have hlamem : (y :: rest2).getLastD [] ∈ y :: rest2 := by
        rw [List.getLastD_eq_getLast?, List.getLast?_eq_getLast _ (by simp)]
        exact List.getLast_mem _
      have hla := parseTokens_token_props (stripChars l) ((y :: rest2).getLastD [])
        (by rw [htoks]; exact List.mem_cons_of_mem w hlamem)
      have hstrip : stripChars (w ++ ' ' :: (y :: rest2).getLastD [])
          = w ++ ' ' :: (y :: rest2).getLastD [] :=
        stripChars_of_pair w _ hw.1 hla.1
          (fun c hc => (hw.2.1 c hc).1) (fun c hc => (hla.2.1 c hc).1)
      have htoks2 : parseTokens (stripChars (w ++ ' ' :: (y :: rest2).getLastD []))
          = [w, (y :: rest2).getLastD []] := by
        rw [hstrip]
        exact parseTokens_of_pair w _ hw.1 hla.1 hw.2.1 hla.2.1 hw.2.2 hla.2.2
      rw [normChars_of_pair _ w ((y :: rest2).getLastD []) [] htoks2]
      simp [List.getLastD]

/-- Claim C6: `normalize_name` is idempotent — normalizing an already
normalized name returns it unchanged, for every raw input string. -/
theorem C6_normalize_name_idempotent (s : String) :
    normalize_name (normalize_name s) = normalize_name s := by
  show String.mk (normChars (String.toList (String.mk (normChars s.toList))))
    = String.mk (normChars s.toList)
  have ht : String.toList (String.mk (normChars s.toList)) = normChars s.toList := rfl
  rw [ht, normChars_idem]

end Recruiting
